import Mathlib

/-!
Shallow embedding of the core numeric operations of the RAVE audio codec
(`rave/core.py`, `rave/blocks.py`, `rave/model.py`), together with theorems
settling the specification claims about them.  Machine floats are modelled by
real numbers; tensors indexed by batch/channel/time become functions over `Fin`
types; the external `VectorQuantize` layers and discriminator feature maps are
treated as opaque values fed to the arithmetic the source performs on them.
-/

namespace Rave

/-! ## Definitions translated from the source -/

/-- Torch sigmoid: `sigmoid(x) = 1 / (1 + exp(-x))`. -/
noncomputable def sigmoid (x : ℝ) : ℝ := 1 / (1 + Real.exp (-x))

/-- `mod_sigmoid` from `rave/core.py` lines 65-66:
`2 * torch.sigmoid(x) ** 2.3 + 1e-7`. -/
noncomputable def mod_sigmoid (x : ℝ) : ℝ := 2 * sigmoid x ^ (2.3 : ℝ) + 1e-7

/-- The decoder output combination in `Generator.forward` (`rave/blocks.py` line 431),
one sample at a time: `torch.tanh(waveform) * mod_sigmoid(loudness)` (before the
optional noise addition). -/
noncomputable def generator_combine (waveform loudness : ℝ) : ℝ :=
  Real.tanh waveform * mod_sigmoid loudness

/-- `DiscreteEncoder.forward` (`rave/blocks.py` lines 727-729) applies `torch.tanh`
to the raw encoder output, componentwise. -/
noncomputable def discrete_encoder_forward (z : ℝ) : ℝ := Real.tanh z

/-- The dynamic mask in `ResidualVectorQuantize.forward` (`rave/blocks.py` line 70):
stage `i` is dropped iff `quant_index > mask_threshold`. -/
def rvq_mask (threshold i : ℕ) : Bool := threshold < i

/-- Per-stage quantized value after quantizer dropout (`rave/blocks.py` lines 77-81):
`torch.where(mask, 0, quantized_out)`.  `q i` is the value stage `i` contributed
at one (batch, channel, time) position. -/
def rvq_masked_quant (q : ℕ → ℚ) (threshold i : ℕ) : ℚ :=
  if rvq_mask threshold i then 0 else q i

/-- Per-stage loss after loss dropout and normalization (`rave/blocks.py` lines 84-90):
`torch.where(mask, 0, losses) / (mask_threshold + 1)`. -/
def rvq_masked_loss (l : ℕ → ℚ) (threshold i : ℕ) : ℚ :=
  (if rvq_mask threshold i then 0 else l i) / (threshold + 1)

/-- `quantized_out.sum(-1)` over the `num_quantizers` stages after masking
(`rave/blocks.py` line 92), for one batch element of threshold `threshold`. -/
def rvq_quantized_out (nq threshold : ℕ) (q : ℕ → ℚ) : ℚ :=
  ∑ i ∈ Finset.range nq, rvq_masked_quant q threshold i

/-- `losses.sum(-1)` over stages after masking and normalization
(`rave/blocks.py` line 93), for one batch element of threshold `threshold`. -/
def rvq_losses_out (nq threshold : ℕ) (l : ℕ → ℚ) : ℚ :=
  ∑ i ∈ Finset.range nq, rvq_masked_loss l threshold i

/-- The cached receptive-field pair (`RAVE.receptive_field` buffer,
`rave/model.py` line 68): two non-negative sample counts. -/
structure ReceptiveField where
  left : ℕ
  right : ℕ
deriving DecidableEq, Repr

/-- The receptive-field logic of `RAVE.validation_epoch_end` (`rave/model.py`
lines 243-251): the probe `get_rave_receptive_field` runs only when the cached
pair sums to zero (`if not self.receptive_field.sum()`), in which case its result
`probe` is stored.  Returns the updated cache and whether the probe ran. -/
def validation_epoch_end_rf (rf probe : ReceptiveField) : ReceptiveField × Bool :=
  if rf.left + rf.right = 0 then (probe, true) else (rf, false)

/-- Iterating validation epochs: fold the epoch-end update over a list of probe
results (one per epoch). -/
def run_validation_epochs (rf : ReceptiveField) (probes : List ReceptiveField) :
    ReceptiveField :=
  probes.foldl (fun s p => (validation_epoch_end_rf s p).1) rf

/-- Optimizer selection in `RAVE.training_step` (`rave/model.py` lines 176-184):
the discriminator optimizer steps iff `batch_idx % 2` is truthy and the model is
warmed up. -/
def step_discriminator (batch_idx : ℕ) (warmed_up : Bool) : Bool :=
  (batch_idx % 2 != 0) && warmed_up

/-- The `else` arm of the same dispatch: the generator optimizer steps exactly when
the discriminator one does not. -/
def step_generator (batch_idx : ℕ) (warmed_up : Bool) : Bool :=
  !(step_discriminator batch_idx warmed_up)

/-- Per-scale feature-matching distance (`RAVE.training_step`, `rave/model.py`
lines 144-149): `sum(map(fm, scale_true[k:], scale_fake[k:])) / len(scale_true[k:])`
where `k = num_skipped_features`. -/
noncomputable def feature_matching_scale {α : Type} (fm : α → α → ℝ) (k : ℕ)
    (scale_true scale_fake : List α) : ℝ :=
  (List.zipWith fm (scale_true.drop k) (scale_fake.drop k)).sum /
    (scale_true.drop k).length

/-- Total feature-matching distance (`rave/model.py` lines 143-162): the per-scale
distances accumulated over all scales, then divided by the number of scales. -/
noncomputable def feature_matching_distance {α : Type} (fm : α → α → ℝ) (k : ℕ)
    (scales : List (List α × List α)) : ℝ :=
  (scales.map fun s => feature_matching_scale fm k s.1 s.2).sum / scales.length

/-- `torch.nn.functional.softplus(x) = log(1 + exp x)`. -/
noncomputable def softplus (x : ℝ) : ℝ := Real.log (1 + Real.exp x)

/-- The std computed in `VariationalEncoder.reparametrize` (`rave/blocks.py`
line 644): `softplus(scale) + 1e-4`. -/
noncomputable def reparam_std (scale : ℝ) : ℝ := softplus scale + 1e-4

/-- One summand of the code's kl expression (`rave/blocks.py` line 649):
`mean*mean + var - logvar - 1` with `var = std*std` and `logvar = log var`. -/
noncomputable def kl_term (mean scale : ℝ) : ℝ :=
  mean * mean + reparam_std scale * reparam_std scale
    - Real.log (reparam_std scale * reparam_std scale) - 1

/-- The code's `kl` (`rave/blocks.py` line 649) for a latent of shape (B, C, T):
`(mean*mean + var - logvar - 1).sum(1).mean()` sums over channels and averages
over batch and time. -/
noncomputable def kl_code (B C T : ℕ) (mean scale : Fin B → Fin C → Fin T → ℝ) : ℝ :=
  (∑ b, ∑ t, ∑ c, kl_term (mean b c t) (scale b c t)) / ((B : ℝ) * T)

/-- The regularization returned by `VariationalEncoder.reparametrize`
(`rave/blocks.py` line 651): `self.beta * kl`. -/
noncomputable def reparametrize_reg (beta : ℝ) (B C T : ℕ)
    (mean scale : Fin B → Fin C → Fin T → ℝ) : ℝ :=
  beta * kl_code B C T mean scale

/-- Following the spec's words: the closed form of the Gaussian KL divergence
`KL(N(mu, sigma^2) ‖ N(0, 1)) = (mu^2 + sigma^2 - log sigma^2 - 1) / 2`. -/
noncomputable def gaussian_kl (mu sigma : ℝ) : ℝ :=
  (mu * mu + sigma * sigma - Real.log (sigma * sigma) - 1) / 2

/-- Following the spec's words: `regularization = beta * KL(q ‖ N(0,I))` of the
induced posterior (mean, std = softplus(scale)+1e-4), averaged over batch and
time, summed over channels. -/
noncomputable def spec_variational_reg (beta : ℝ) (B C T : ℕ)
    (mean scale : Fin B → Fin C → Fin T → ℝ) : ℝ :=
  beta * ((∑ b, ∑ t, ∑ c, gaussian_kl (mean b c t) (reparam_std (scale b c t))) /
    ((B : ℝ) * T))

/-- `WasserteinEncoder.compute_mean_kernel` (`rave/blocks.py` lines 671-673):
`kernel_input = (x[:, None] - y[None]).pow(2).mean(2) / x.shape[-1]` followed by
`exp(-kernel_input).mean()`; `n`, `m` are the sample counts and `d` the latent
dimensionality. -/
noncomputable def compute_mean_kernel (n m d : ℕ)
    (x : Fin n → Fin d → ℝ) (y : Fin m → Fin d → ℝ) : ℝ :=
  (∑ i, ∑ j, Real.exp (-((∑ k, (x i k - y j k) ^ 2) / d / d))) / ((n : ℝ) * m)

/-- `WasserteinEncoder.compute_mmd` (`rave/blocks.py` lines 675-680):
`K(x,x) + K(y,y) - 2 * K(x,y)`. -/
noncomputable def compute_mmd (n m d : ℕ)
    (x : Fin n → Fin d → ℝ) (y : Fin m → Fin d → ℝ) : ℝ :=
  compute_mean_kernel n n d x x + compute_mean_kernel m m d y y
    - 2 * compute_mean_kernel n m d x y

/-- Following the spec's words: `K(a,b) = mean(exp(-mean((a_i-b_j)^2)/dim))` over
all pairs `(i, j)`, where the inner mean runs over the `dim` latent components. -/
noncomputable def spec_kernel (n m d : ℕ)
    (x : Fin n → Fin d → ℝ) (y : Fin m → Fin d → ℝ) : ℝ :=
  (∑ i, ∑ j, Real.exp (-(((∑ k, (x i k - y j k) ^ 2) / d) / d))) / ((n : ℝ) * m)

/-! ## Theorems -/

/-- Claim C1 counterexample: with 2 quantizers and the maximal threshold
`num_quantizers - 1 = 1`, the last stage is NOT dropped (its masked value stays,
so the summed output keeps every stage), contradicting "only the last stage is
dropped" at that threshold. -/
theorem rvq_threshold_max_drops_nothing :
    rvq_masked_quant (fun _ => (1 : ℚ)) 1 1 ≠ 0 ∧
    rvq_quantized_out 2 1 (fun _ => (1 : ℚ)) ≠ 1 := by
  refine ⟨by decide, ?_⟩
  simp [rvq_quantized_out, rvq_masked_quant, rvq_mask, Finset.sum_range_succ]

/-- Claim C1 (amended): in training mode with dynamic masking, a batch element with
threshold 0 keeps only the first stage: every later stage is zeroed in both the
quantized output and the per-stage loss, so the summed output is `q 0` and the
summed loss `l 0` (the division by `threshold + 1 = 1` leaving it unchanged);
with the maximal threshold `num_quantizers - 1` no stage is dropped (the output is
the full sum over stages); the last stage alone is dropped at threshold
`num_quantizers - 2`. -/
theorem rvq_dynamic_masking (n : ℕ) (q l : ℕ → ℚ) :
    (∀ i, rvq_masked_quant q 0 (i + 1) = 0) ∧
    (∀ i, rvq_masked_loss l 0 (i + 1) = 0) ∧
    rvq_quantized_out (n + 1) 0 q = q 0 ∧
    rvq_losses_out (n + 1) 0 l = l 0 ∧
    rvq_quantized_out (n + 1) n q = ∑ i ∈ Finset.range (n + 1), q i ∧
    rvq_quantized_out (n + 2) n q = ∑ i ∈ Finset.range (n + 1), q i := by
  have hqkeep : rvq_quantized_out (n + 1) n q = ∑ i ∈ Finset.range (n + 1), q i := by
    refine Finset.sum_congr rfl fun i hi => ?_
    have : ¬ n < i := by
      have := Finset.mem_range.mp hi
      omega
    simp [rvq_masked_quant, rvq_mask, this]
  refine ⟨?_, ?_, ?_, ?_, hqkeep, ?_⟩
  · intro i
    simp [rvq_masked_quant, rvq_mask]
  · intro i
    simp [rvq_masked_loss, rvq_mask]
  · rw [rvq_quantized_out, Finset.sum_eq_single_of_mem 0 (Finset.mem_range.mpr (by omega))]
    · simp [rvq_masked_quant, rvq_mask]
    · intro b _ hb
      simp [rvq_masked_quant, rvq_mask, Nat.pos_of_ne_zero hb]
  · rw [rvq_losses_out, Finset.sum_eq_single_of_mem 0 (Finset.mem_range.mpr (by omega))]
    · simp [rvq_masked_loss, rvq_mask]
    · intro b _ hb
      simp [rvq_masked_loss, rvq_mask, Nat.pos_of_ne_zero hb]
  · rw [rvq_quantized_out, Finset.sum_range_succ, ← rvq_quantized_out, hqkeep]
    simp [rvq_masked_quant, rvq_mask]

/-- Claim C6: once the cached receptive-field pair has positive sum, no sequence of
validation epochs changes it, the probe never runs from that state, and in general
the probe runs exactly when the stored pair sums to zero. -/
theorem receptive_field_cached (rf : ReceptiveField) (probes : List ReceptiveField)
    (h : 0 < rf.left + rf.right) :
    run_validation_epochs rf probes = rf ∧
    (∀ p, (validation_epoch_end_rf rf p).2 = false) ∧
    ∀ (s p : ReceptiveField),
      (validation_epoch_end_rf s p).2 = true ↔ s.left + s.right = 0 := by
  have hne : ¬(rf.left = 0 ∧ rf.right = 0) := fun hc => by omega
  refine ⟨?_, ?_, ?_⟩
  · induction probes with
    | nil => rfl
    | cons p ps ih =>
      simpa [run_validation_epochs, validation_epoch_end_rf, hne] using ih
  · intro p
    simp [validation_epoch_end_rf, hne]
  · intro s p
    by_cases hs : s.left + s.right = 0 <;> simp [validation_epoch_end_rf, hs]

/-- Claim C6 witness: a concrete non-zero cache `(3, 2)` and a single later epoch
whose probe result `(7, 7)` is ignored. -/
theorem receptive_field_cached_witness :
    0 < (ReceptiveField.mk 3 2).left + (ReceptiveField.mk 3 2).right ∧
    (run_validation_epochs (ReceptiveField.mk 3 2) [ReceptiveField.mk 7 7] =
        ReceptiveField.mk 3 2 ∧
      (∀ p, (validation_epoch_end_rf (ReceptiveField.mk 3 2) p).2 = false) ∧
      ∀ (s p : ReceptiveField),
        (validation_epoch_end_rf s p).2 = true ↔ s.left + s.right = 0) :=
  ⟨by decide,
    receptive_field_cached (ReceptiveField.mk 3 2) [ReceptiveField.mk 7 7] (by decide)⟩

/-- Claim C7: in every training step exactly one optimizer steps: the discriminator
iff the batch index is odd and the model is warmed up, the generator in every other
case; before warm-up only the generator is ever optimized. -/
theorem optimizer_alternation (batch_idx : ℕ) (warmed_up : Bool) :
    (step_discriminator batch_idx warmed_up = true ↔
      batch_idx % 2 = 1 ∧ warmed_up = true) ∧
    step_generator batch_idx warmed_up = !step_discriminator batch_idx warmed_up ∧
    step_generator batch_idx false = true := by
  refine ⟨?_, rfl, by simp [step_generator, step_discriminator]⟩
  cases warmed_up <;> simp [step_discriminator]

/-- Claim C7 witness: at odd batch index 3 while warmed up. -/
theorem optimizer_alternation_witness :
    (step_discriminator 3 true = true ↔ 3 % 2 = 1 ∧ true = true) ∧
    step_generator 3 true = !step_discriminator 3 true ∧
    step_generator 3 false = true :=
  optimizer_alternation 3 true

/-- Claim C8: the feature-matching distance is computed only over the feature maps
after skipping the first `k = num_skipped_features` (the per-scale distance equals
the unskipped distance of the dropped lists), divides within a scale by the number
of remaining maps and across scales by the number of scales; with `k = 1` and
3 maps per scale only the last two maps enter, averaged by 2, and with two such
scales the total is their average. -/
theorem feature_matching_skips {α : Type} (fm : α → α → ℝ) (k : ℕ)
    (st sf : List α) (a0 a1 a2 b0 b1 b2 : α) (s2 : List α × List α) :
    feature_matching_scale fm k st sf =
      feature_matching_scale fm 0 (st.drop k) (sf.drop k) ∧
    feature_matching_scale fm 1 [a0, a1, a2] [b0, b1, b2] =
      (fm a1 b1 + fm a2 b2) / 2 ∧
    feature_matching_distance fm 1 [([a0, a1, a2], [b0, b1, b2]), s2] =
      (feature_matching_scale fm 1 [a0, a1, a2] [b0, b1, b2] +
        feature_matching_scale fm 1 s2.1 s2.2) / 2 := by
  refine ⟨rfl, ?_, ?_⟩
  · norm_num [feature_matching_scale]
  · norm_num [feature_matching_distance]

theorem sigmoid_pos (x : ℝ) : 0 < sigmoid x := by
  unfold sigmoid
  positivity

theorem sigmoid_lt_one (x : ℝ) : sigmoid x < 1 := by
  unfold sigmoid
  rw [div_lt_one (by positivity)]
  linarith [Real.exp_pos (-x)]

theorem sigmoid_strictMono : StrictMono sigmoid := by
  intro a b hab
  unfold sigmoid
  have hexp : Real.exp (-b) < Real.exp (-a) := Real.exp_lt_exp.mpr (by linarith)
  exact one_div_lt_one_div_of_lt (by positivity) (by linarith)

theorem mod_sigmoid_pos_lt (x : ℝ) : 1e-7 < mod_sigmoid x ∧ mod_sigmoid x < 2 + 1e-7 := by
  have h0 := sigmoid_pos x
  have h1 := sigmoid_lt_one x
  have hp : 0 < sigmoid x ^ (2.3 : ℝ) := Real.rpow_pos_of_pos h0 _
  have hl : sigmoid x ^ (2.3 : ℝ) < 1 := Real.rpow_lt_one h0.le h1 (by norm_num)
  unfold mod_sigmoid
  constructor <;> nlinarith

theorem mod_sigmoid_strictMono : StrictMono mod_sigmoid := by
  intro a b hab
  unfold mod_sigmoid
  have h := sigmoid_strictMono hab
  have := Real.rpow_lt_rpow (sigmoid_pos a).le h (by norm_num : (0 : ℝ) < 2.3)
  linarith

/-- Claim C9: the modified sigmoid `g(x) = 2*sigmoid(x)^2.3 + 1e-7` is strictly
monotonically increasing for all real x, its value lies in the open interval
`(1e-7, 2 + 1e-7)` for every x, and `g(0) = 2 * 0.5^2.3 + 1e-7`. -/
theorem mod_sigmoid_props :
    StrictMono mod_sigmoid ∧
    (∀ x, 1e-7 < mod_sigmoid x ∧ mod_sigmoid x < 2 + 1e-7) ∧
    mod_sigmoid 0 = 2 * (0.5 : ℝ) ^ (2.3 : ℝ) + 1e-7 := by
  refine ⟨mod_sigmoid_strictMono, mod_sigmoid_pos_lt, ?_⟩
  have hs : sigmoid 0 = 0.5 := by
    unfold sigmoid
    rw [neg_zero, Real.exp_zero]
    norm_num
  rw [mod_sigmoid, hs]

theorem tanh_lt_one (x : ℝ) : Real.tanh x < 1 := by
  rw [Real.tanh_eq_sinh_div_cosh, div_lt_one (Real.cosh_pos x)]
  exact Real.sinh_lt_cosh x

theorem neg_one_lt_tanh (x : ℝ) : -1 < Real.tanh x := by
  have h := tanh_lt_one (-x)
  rw [Real.tanh_neg] at h
  linarith

/-- Claim C10: the Discrete encoder's forward output passes through tanh, so every
component of the raw latent fed to the quantizer lies strictly within (-1, 1). -/
theorem discrete_encoder_forward_bounded (z : ℝ) :
    -1 < discrete_encoder_forward z ∧ discrete_encoder_forward z < 1 :=
  ⟨neg_one_lt_tanh z, tanh_lt_one z⟩

theorem tanh_ten_gt : (0.9 : ℝ) < Real.tanh 10 := by
  rw [Real.tanh_eq_sinh_div_cosh, Real.sinh_eq, Real.cosh_eq]
  have hb : 0 < Real.exp (-10 : ℝ) := Real.exp_pos _
  have hab : Real.exp (10 : ℝ) * Real.exp (-10 : ℝ) = 1 := by
    rw [← Real.exp_add]
    norm_num
  have ha : (11 : ℝ) ≤ Real.exp 10 := by
    have := Real.add_one_le_exp (10 : ℝ)
    linarith
  have h11b : 11 * Real.exp (-10 : ℝ) ≤ 1 := by
    nlinarith
  rw [lt_div_iff₀ (by positivity)]
  linarith

theorem mod_sigmoid_ten_gt : (1.5 : ℝ) < mod_sigmoid 10 := by
  have hb : 0 < Real.exp (-10 : ℝ) := Real.exp_pos _
  have hab : Real.exp (10 : ℝ) * Real.exp (-10 : ℝ) = 1 := by
    rw [← Real.exp_add]
    norm_num
  have ha : (11 : ℝ) ≤ Real.exp 10 := by
    have := Real.add_one_le_exp (10 : ℝ)
    linarith
  have h11b : 11 * Real.exp (-10 : ℝ) ≤ 1 := by
    nlinarith
  have hs : (11 / 12 : ℝ) ≤ sigmoid 10 := by
    unfold sigmoid
    rw [le_div_iff₀ (by positivity)]
    linarith
  have h1 : (11 / 12 : ℝ) ^ (2.3 : ℝ) ≤ sigmoid 10 ^ (2.3 : ℝ) :=
    Real.rpow_le_rpow (by norm_num) hs (by norm_num)
  have h2 : (11 / 12 : ℝ) ^ (3 : ℝ) ≤ (11 / 12 : ℝ) ^ (2.3 : ℝ) :=
    Real.rpow_le_rpow_of_exponent_ge (by norm_num) (by norm_num) (by norm_num)
  have h3 : (11 / 12 : ℝ) ^ (3 : ℝ) = 1331 / 1728 := by
    rw [show (3 : ℝ) = ((3 : ℕ) : ℝ) by norm_num, Real.rpow_natCast]
    norm_num
  unfold mod_sigmoid
  nlinarith

/-- Claim C2 counterexample: at waveform sample 10 and loudness sample 10, the
combined decoder output `tanh(10) * mod_sigmoid(10)` exceeds 1, so its amplitude
is not within [-1, 1]. -/
theorem generator_combine_exceeds_one :
    ¬(-1 ≤ generator_combine 10 10 ∧ generator_combine 10 10 ≤ 1) := by
  rintro ⟨-, h⟩
  have h1 := tanh_ten_gt
  have h2 := mod_sigmoid_ten_gt
  rw [generator_combine] at h
  nlinarith

/-- Claim C2 (amended): the decoder's combined output `tanh(waveform) *
mod_sigmoid(loudness)` (before any noise addition) has every sample's amplitude
strictly within (-(2 + 1e-7), 2 + 1e-7); it is not in general within [-1, 1]. -/
theorem generator_combine_bounded (w l : ℝ) :
    |generator_combine w l| < 2 + 1e-7 := by
  have ht : |Real.tanh w| < 1 := abs_lt.mpr ⟨neg_one_lt_tanh w, tanh_lt_one w⟩
  have hm := mod_sigmoid_pos_lt l
  have hmpos : 0 < mod_sigmoid l := lt_trans (by norm_num : (0 : ℝ) < 1e-7) hm.1
  rw [generator_combine, abs_mul, abs_of_pos hmpos]
  calc |Real.tanh w| * mod_sigmoid l ≤ 1 * mod_sigmoid l :=
        mul_le_mul_of_nonneg_right ht.le hmpos.le
    _ < 2 + 1e-7 := by linarith [hm.2]

/-- Claim C5: for every pair of sample sets, the Wasserstein bottleneck's MMD
regularizer equals `K(x,x) + K(y,y) - 2*K(x,y)` where `K(a,b)` is the mean over
all pairs (i, j) of `exp(-mean((a_i-b_j)^2)/dim)` with `dim` the latent
dimensionality. -/
theorem compute_mmd_eq_spec (n m d : ℕ)
    (x : Fin n → Fin d → ℝ) (y : Fin m → Fin d → ℝ) :
    compute_mmd n m d x y =
      spec_kernel n n d x x + spec_kernel m m d y y - 2 * spec_kernel n m d x y := rfl

theorem reparam_std_pos (s : ℝ) : 0 < reparam_std s := by
  unfold reparam_std softplus
  have h1 : (0 : ℝ) < Real.log (1 + Real.exp s) :=
    Real.log_pos (by linarith [Real.exp_pos s])
  have h2 : (0 : ℝ) < 1e-4 := by norm_num
  linarith

theorem kl_term_nonneg (m s : ℝ) : 0 ≤ kl_term m s := by
  have hσ := reparam_std_pos s
  have hv : 0 < reparam_std s * reparam_std s := mul_pos hσ hσ
  unfold kl_term
  linarith [Real.log_le_sub_one_of_pos hv, mul_self_nonneg m]

theorem kl_term_eq_zero_iff (m s : ℝ) :
    kl_term m s = 0 ↔ m = 0 ∧ reparam_std s = 1 := by
  have hσ := reparam_std_pos s
  have hv : 0 < reparam_std s * reparam_std s := mul_pos hσ hσ
  constructor
  · intro h
    by_cases hm : m = 0
    · refine ⟨hm, ?_⟩
      by_contra hσ1
      have hv1 : reparam_std s * reparam_std s ≠ 1 := by
        intro hc
        rcases mul_self_eq_one_iff.mp hc with h1 | h1
        · exact hσ1 h1
        · linarith
      have hstrict := Real.log_lt_sub_one_of_pos hv hv1
      unfold kl_term at h
      nlinarith [mul_self_nonneg m]
    · have hlog := Real.log_le_sub_one_of_pos hv
      have hm2 : 0 < m * m := mul_self_pos.mpr hm
      unfold kl_term at h
      linarith
  · rintro ⟨hm, hσ1⟩
    unfold kl_term
    rw [hm, hσ1]
    simp

/-- Claim C4: for every mean and std produced inside the Variational reparametrize
(std = softplus(scale) + 1e-4), the computed KL regularization is always
non-negative, and is zero exactly when every mean is 0 and every std is 1. -/
theorem kl_code_nonneg_zero_iff (B C T : ℕ)
    (mean scale : Fin (B + 1) → Fin C → Fin (T + 1) → ℝ) :
    0 ≤ kl_code (B + 1) C (T + 1) mean scale ∧
    (kl_code (B + 1) C (T + 1) mean scale = 0 ↔
      ∀ b c t, mean b c t = 0 ∧ reparam_std (scale b c t) = 1) := by
  have hSnonneg : 0 ≤ ∑ b, ∑ t, ∑ c, kl_term (mean b c t) (scale b c t) :=
    Finset.sum_nonneg fun b _ => Finset.sum_nonneg fun t _ =>
      Finset.sum_nonneg fun c _ => kl_term_nonneg _ _
  have hden : (0 : ℝ) < ((B + 1 : ℕ) : ℝ) * ((T + 1 : ℕ) : ℝ) := by
    have h1 : (0 : ℝ) < ((B + 1 : ℕ) : ℝ) := by exact_mod_cast Nat.succ_pos B
    have h2 : (0 : ℝ) < ((T + 1 : ℕ) : ℝ) := by exact_mod_cast Nat.succ_pos T
    exact mul_pos h1 h2
  unfold kl_code
  refine ⟨div_nonneg hSnonneg hden.le, ?_⟩
  rw [div_eq_zero_iff]
  constructor
  · rintro (h0 | h0)
    · intro b c t
      have h1 := (Finset.sum_eq_zero_iff_of_nonneg fun b _ =>
        Finset.sum_nonneg fun t _ => Finset.sum_nonneg fun c _ =>
          kl_term_nonneg (mean b c t) (scale b c t)).mp h0 b (Finset.mem_univ b)
      have h2 := (Finset.sum_eq_zero_iff_of_nonneg fun t _ =>
        Finset.sum_nonneg fun c _ =>
          kl_term_nonneg (mean b c t) (scale b c t)).mp h1 t (Finset.mem_univ t)
      have h3 := (Finset.sum_eq_zero_iff_of_nonneg fun c _ =>
        kl_term_nonneg (mean b c t) (scale b c t)).mp h2 c (Finset.mem_univ c)
      exact (kl_term_eq_zero_iff _ _).mp h3
    · exact absurd h0 hden.ne'
  · intro h
    left
    exact Finset.sum_eq_zero fun b _ => Finset.sum_eq_zero fun t _ =>
      Finset.sum_eq_zero fun c _ => (kl_term_eq_zero_iff _ _).mpr (h b c t)

/-- Claim C4 witness: the statement instantiated at B = C = T = 1 with zero mean
and zero scale. -/
theorem kl_code_nonneg_zero_iff_witness :
    0 ≤ kl_code 1 1 1 (fun _ _ _ => (0 : ℝ)) (fun _ _ _ => (0 : ℝ)) ∧
    (kl_code 1 1 1 (fun _ _ _ => (0 : ℝ)) (fun _ _ _ => (0 : ℝ)) = 0 ↔
      ∀ (_ : Fin 1) (_ : Fin 1) (_ : Fin 1), (0 : ℝ) = 0 ∧ reparam_std 0 = 1) :=
  kl_code_nonneg_zero_iff 0 1 0 (fun _ _ _ => 0) (fun _ _ _ => 0)

/-- Claim C3 counterexample: at B = C = T = 1, beta = 1, mean 2 and scale 0, the
regularization returned by `reparametrize` differs from beta times the KL
divergence of the induced posterior: the code's expression omits the 1/2 factor
of the Gaussian KL closed form. -/
theorem reparametrize_reg_ne_spec :
    reparametrize_reg 1 1 1 1 (fun _ _ _ => 2) (fun _ _ _ => 0) ≠
      spec_variational_reg 1 1 1 1 (fun _ _ _ => 2) (fun _ _ _ => 0) := by
  intro h
  have hσ := reparam_std_pos 0
  have hv : 0 < reparam_std 0 * reparam_std 0 := mul_pos hσ hσ
  have hterm : 0 < kl_term 2 0 := by
    unfold kl_term
    nlinarith [Real.log_le_sub_one_of_pos hv]
  have hred : reparametrize_reg 1 1 1 1 (fun _ _ _ => 2) (fun _ _ _ => 0) =
      kl_term 2 0 := by
    unfold reparametrize_reg kl_code
    simp [Fin.sum_univ_one]
  have hred2 : spec_variational_reg 1 1 1 1 (fun _ _ _ => 2) (fun _ _ _ => 0) =
      kl_term 2 0 / 2 := by
    unfold spec_variational_reg gaussian_kl kl_term
    simp [Fin.sum_univ_one]
  rw [hred, hred2] at h
  linarith

/-- Claim C3 (amended): for every raw latent, the Variational bottleneck's
regularization equals beta times TWICE the KL divergence KL(q ‖ N(0,I)) of the
induced Gaussian posterior, averaged over the batch and time dimensions and
summed over the channel dimension. -/
theorem reparametrize_reg_eq_twice_kl (beta : ℝ) (B C T : ℕ)
    (mean scale : Fin B → Fin C → Fin T → ℝ) :
    reparametrize_reg beta B C T mean scale =
      beta * (2 * ((∑ b, ∑ t, ∑ c,
        gaussian_kl (mean b c t) (reparam_std (scale b c t))) / ((B : ℝ) * T))) := by
  have hsum : (∑ b, ∑ t, ∑ c, kl_term (mean b c t) (scale b c t))
      = 2 * ∑ b, ∑ t, ∑ c, gaussian_kl (mean b c t) (reparam_std (scale b c t)) := by
    rw [Finset.mul_sum]
    refine Finset.sum_congr rfl fun b _ => ?_
    rw [Finset.mul_sum]
    refine Finset.sum_congr rfl fun t _ => ?_
    rw [Finset.mul_sum]
    refine Finset.sum_congr rfl fun c _ => ?_
    unfold kl_term gaussian_kl
    ring
  unfold reparametrize_reg kl_code
  rw [hsum, mul_div_assoc]

end Rave
